import Mathlib

/-!
Verification of the glb-to-stl converter (src/glb2stl.py).

The program is shallowly embedded over byte lists (`List Nat`, each entry a
byte value).  Bytes are sliced with `List.drop`/`List.take`, mirroring Python
slices `data[off:off+n]`; `struct.unpack` of a fixed-size pattern fails
exactly when the slice is shorter than the pattern, which the embedding
mirrors by checking the slice length.

IEEE-754 float values are not interpreted: a decoded vertex is carried as its
raw 12-byte little-endian slice, and re-packing an unpacked float32 is the
identity on those bytes (exact for every non-NaN payload), so the writers
re-emit the slices verbatim.  The one float computation, the per-face normal,
is modelled separately over the real numbers (`face_normal` below); the binary
writer takes the 12 packed normal bytes as an abstract parameter.
-/

/-- Little-endian unsigned 32-bit value of the first four bytes of a list,
as decoded by struct.unpack of one I pattern. -/
def le_u32 (b : List Nat) : Nat :=
  b.getD 0 0 + 256 * b.getD 1 0 + 65536 * b.getD 2 0 + 16777216 * b.getD 3 0

/-- Little-endian 4-byte encoding of a value below 2^32, as produced by
struct.pack of one I pattern. -/
def u32_bytes (n : Nat) : List Nat :=
  [n % 256, n / 256 % 256, n / 65536 % 256, n / 16777216 % 256]

/-- Python slice data[off:off+n]. -/
def pySlice (data : List Nat) (off n : Nat) : List Nat :=
  (data.drop off).take n

/-- struct.unpack of a single little-endian u32 at a stream offset: Python
reads 4 bytes from the file and unpack raises struct.error when fewer than 4
bytes remain. -/
def unpack_u32 (data : List Nat) (off : Nat) : Except String Nat :=
  if (pySlice data off 4).length = 4 then .ok (le_u32 (pySlice data off 4))
  else .error ("struct.error")

/-- The bytes of the magic tag glTF. -/
def glbMagic : List Nat := [103, 108, 84, 70]

/-- The bytes of the JSON chunk tag. -/
def jsonTag : List Nat := [74, 83, 79, 78]

/-- The bytes of the BIN chunk tag (with trailing null pad byte). -/
def binTag : List Nat := [66, 73, 78, 0]

/-- parse_glb (src/glb2stl.py lines 12-50): read the 12-byte header (magic,
version, total length), then the JSON chunk header and data, then the BIN
chunk header and data.  Sequential file reads are modelled by accumulating
offsets into the byte list.  The json.loads decode of the JSON chunk and the
scene-tree lookups are not modelled; the JSON chunk is returned raw, and the
mesh extractor below receives the resolved accessor parameters explicitly.
Result: (version, total length, json bytes, bin bytes). -/
def parse_glb (data : List Nat) : Except String (Nat × Nat × List Nat × List Nat) :=
  if pySlice data 0 4 ≠ glbMagic then .error ("Not a valid glTF binary file")
  else do
    let version ← unpack_u32 data 4
    let total ← unpack_u32 data 8
    let jsonLen ← unpack_u32 data 12
    if pySlice data 16 4 ≠ jsonTag then .error ("Expected JSON chunk first")
    else do
      let jsonData := pySlice data 20 jsonLen
      let binLen ← unpack_u32 data (20 + jsonLen)
      if pySlice data (24 + jsonLen) 4 ≠ binTag then .error ("Expected BIN chunk")
      else .ok (version, total, jsonData, pySlice data (28 + jsonLen) binLen)

/-- Vertex extraction loop (src/glb2stl.py lines 69-73): for i below the
declared count, unpack 12 bytes at pos_offset + i*12.  A vertex is kept as
its raw 12-byte slice (see the header comment).  The loop succeeds iff every
slice has the full 12 bytes, and then yields the slices in order; a short
slice raises struct.error, modelled as `none`. -/
def extract_vertices (bin_data : List Nat) (pos_offset pos_count : Nat) :
    Option (List (List Nat)) :=
  if ∀ i < pos_count, pos_offset + 12 * i + 12 ≤ bin_data.length then
    some ((List.range pos_count).map fun i => pySlice bin_data (pos_offset + 12 * i) 12)
  else none

/-- Face extraction loop (src/glb2stl.py lines 79-83): for i in
range(0, idx_count, 3), unpack three little-endian u32 at idx_offset + i*4.
The loop body runs for i = 0, 3, ..., i.e. ceil(idx_count/3) times, with the
k-th iteration reading the 12 bytes at idx_offset + 12*k.  It succeeds iff
every slice has the full 12 bytes. -/
def extract_faces (bin_data : List Nat) (idx_offset idx_count : Nat) :
    Option (List (Nat × Nat × Nat)) :=
  if ∀ k < (idx_count + 2) / 3, idx_offset + 12 * k + 12 ≤ bin_data.length then
    some ((List.range ((idx_count + 2) / 3)).map fun k =>
      let s := pySlice bin_data (idx_offset + 12 * k) 12
      (le_u32 (s.take 4), le_u32 ((s.drop 4).take 4), le_u32 (s.drop 8)))
  else none

/-- extract_mesh_from_glb (src/glb2stl.py lines 52-85), after the accessor
and bufferView lookups have resolved to (pos_offset, pos_count, idx_offset,
idx_count): decode the vertex array, then the face array. -/
def extract_mesh_from_glb (bin_data : List Nat)
    (pos_offset pos_count idx_offset idx_count : Nat) :
    Option (List (List Nat) × List (Nat × Nat × Nat)) := do
  let vs ← extract_vertices bin_data pos_offset pos_count
  let fs ← extract_faces bin_data idx_offset idx_count
  return (vs, fs)

/-- The 80-byte header written by write_stl_binary (line 91): the ASCII text
followed by 50 zero pad bytes. -/
def stl_header : List Nat :=
  ("Converted from glTF/GBL format").data.map Char.toNat ++ List.replicate 50 0

/-- One 50-byte face record of write_stl_binary (lines 98-127): the 12 packed
normal bytes (abstracted as the parameter nb, a function of the three vertex
slices, standing for pack of the normalized cross product), the three vertex
slices in (a, b, c) order, and the 2-byte attribute count 0. -/
def face_record (nb : List Nat → List Nat → List Nat → List Nat)
    (vertices : List (List Nat)) (f : Nat × Nat × Nat) : List Nat :=
  let va := vertices.getD f.1 []
  let vb := vertices.getD f.2.1 []
  let vc := vertices.getD f.2.2 []
  nb va vb vc ++ va ++ vb ++ vc ++ [0, 0]

/-- write_stl_binary (src/glb2stl.py lines 87-129): header, little-endian
u32 face count, then one record per face in order.  The Python loop raises
IndexError at the first face index outside the vertex array (numpy bounds
check) and struct.error when the face count does not fit a u32; the embedding
returns the whole file iff neither failure occurs, and `none` otherwise. -/
def write_stl_binary (nb : List Nat → List Nat → List Nat → List Nat)
    (vertices : List (List Nat)) (faces : List (Nat × Nat × Nat)) :
    Option (List Nat) :=
  if faces.length < 4294967296 ∧
      ∀ f ∈ faces, f.1 < vertices.length ∧ f.2.1 < vertices.length ∧
        f.2.2 < vertices.length then
    some (stl_header ++ u32_bytes faces.length ++
      (faces.map (face_record nb vertices)).flatten)
  else none

/-- The 80-byte header written by simple_extraction (line 236). -/
def fallback_header : List Nat :=
  ("Simple extraction").data.map Char.toNat ++ List.replicate 63 0

/-- Group a byte list into consecutive 4-byte words, dropping the remainder:
the reinterpretation of data[:len - len mod 4] as 32-bit floats (line 215),
with each float carried as its raw 4-byte word. -/
def word_chunks : List Nat → List (List Nat)
  | a :: b :: c :: d :: rest => [a, b, c, d] :: word_chunks rest
  | _ => []

/-- Group consecutive float words into pseudo-vertices three at a time
(lines 218-220): for i in range(0, len(floats) - 2, 3) the vertex uses floats
i, i+1, i+2, which takes exactly the groups of three whole words.  A vertex is
the 12 concatenated bytes of its three words. -/
def vertex_chunks : List (List Nat) → List (List Nat)
  | a :: b :: c :: rest => (a ++ b ++ c) :: vertex_chunks rest
  | _ => []

/-- The triangle fan of simple_extraction (lines 227-229): for i in
range(1, vertexCount - 1), face (0, i, i+1). -/
def fallback_faces (vertexCount : Nat) : List (Nat × Nat × Nat) :=
  ((List.range (vertexCount - 1)).drop 1).map fun i => (0, i, i + 1)

/-- One 50-byte fallback record (lines 240-245): the normal is the zero
vector written unconditionally, hence 12 zero bytes (pack of float 0.0 is
four zero bytes), then the three vertex slices and the attribute count 0. -/
def fallback_record (vertices : List (List Nat)) (f : Nat × Nat × Nat) :
    List Nat :=
  List.replicate 12 0 ++ vertices.getD f.1 [] ++ vertices.getD f.2.1 [] ++
    vertices.getD f.2.2 [] ++ [0, 0]

/-- simple_extraction (src/glb2stl.py lines 204-247): reinterpret the whole
input file as floats, group into pseudo-vertices, return normally with no
output file when fewer than 3 vertices result, otherwise clamp to the first
100 vertices and 98 fan faces and write the binary file.  `Except.ok none`
is the silent no-op (message printed, no file), `Except.ok (some bytes)` is a
written file, and `Except.error` is a raised exception (numpy IndexError on a
face index outside the clamped vertex array). -/
def simple_extraction (data : List Nat) : Except String (Option (List Nat)) :=
  let vertices := vertex_chunks (word_chunks data)
  if vertices.length < 3 then .ok none
  else
    let clamped := vertices.take 100
    let faces := (fallback_faces vertices.length).take 98
    if ∀ f ∈ faces, f.1 < clamped.length ∧ f.2.1 < clamped.length ∧
        f.2.2 < clamped.length then
      .ok (some (fallback_header ++ u32_bytes faces.length ++
        (faces.map (fallback_record clamped)).flatten))
    else .error ("IndexError")

/-- Outcome of one program run: the primary path wrote this binary file, or
the primary path raised and the fallback ran with this result. -/
inductive ConvOutcome where
  | primary : List Nat → ConvOutcome
  | fallbackRun : Except String (Option (List Nat)) → ConvOutcome

/-- The top-level control flow of main (src/glb2stl.py lines 175-202), after
parse_glb and the scene lookups have resolved the accessor parameters: any
exception in extraction or writing is caught and simple_extraction is invoked
on the raw bytes of the original input path. -/
def run_conversion (nb : List Nat → List Nat → List Nat → List Nat)
    (bin_data : List Nat) (pos_offset pos_count idx_offset idx_count : Nat)
    (raw_file : List Nat) : ConvOutcome :=
  match extract_mesh_from_glb bin_data pos_offset pos_count idx_offset idx_count with
  | none => .fallbackRun (simple_extraction raw_file)
  | some (vs, fs) =>
    match write_stl_binary nb vs fs with
    | some out => .primary out
    | none => .fallbackRun (simple_extraction raw_file)

/-- A 3-component vector over the reals, modelling the float triples of the
normal computation (lines 100-116 and 138-148). -/
@[ext]
structure Vec3 where
  x : ℝ
  y : ℝ
  z : ℝ

/-- Componentwise vector subtraction, as numpy performs for v1 - v0. -/
def vsub (a b : Vec3) : Vec3 := ⟨a.x - b.x, a.y - b.y, a.z - b.z⟩

/-- The cross-product component formula written out in the source
(lines 107-111). -/
def cross (u v : Vec3) : Vec3 :=
  ⟨u.y * v.z - u.z * v.y, u.z * v.x - u.x * v.z, u.x * v.y - u.y * v.x⟩

/-- np.linalg.norm of a 3-vector: the square root of the sum of squares. -/
noncomputable def vnorm (n : Vec3) : ℝ :=
  Real.sqrt (n.x ^ 2 + n.y ^ 2 + n.z ^ 2)

/-- The per-face normal computation of the writers (lines 100-116, 138-148):
edges u = v1 - v0 and v = v2 - v0, their cross product, divided componentwise
by its norm when the norm is positive and left untouched otherwise.  Modelled
over the reals (the header comment). -/
noncomputable def face_normal (v0 v1 v2 : Vec3) : Vec3 :=
  let u := vsub v1 v0
  let v := vsub v2 v0
  let n := cross u v
  let norm := vnorm n
  if 0 < norm then ⟨n.x / norm, n.y / norm, n.z / norm⟩ else n

/-- The decimal digit character for d mod 10. -/
def digitChar (d : Nat) : Char := Char.ofNat (48 + d % 10)

/-- Decimal digit characters of a natural number, most significant first,
with structural fuel (the fuel n + 1 always suffices). -/
def natDigitsAux : Nat → Nat → List Char
  | 0, _ => []
  | fuel + 1, n =>
    if n < 10 then [digitChar n]
    else natDigitsAux fuel (n / 10) ++ [digitChar (n % 10)]

/-- Decimal digit characters of a natural number. -/
def natDigits (n : Nat) : List Char := natDigitsAux (n + 1) n

/-- The six characters after the decimal point for a fraction numerator
r < 10^6: the digits of r left-padded with zeros to width 6, exactly as
fixed-point formatting with precision 6 renders them. -/
def fracDigits6 (r : Nat) : List Char :=
  [digitChar (r / 100000), digitChar (r / 10000), digitChar (r / 1000),
   digitChar (r / 100), digitChar (r / 10), digitChar r]

/-- The characters of fixed-point formatting with 6 digits after the decimal
point, the .6f format specifier used on every coordinate and normal component
of the text writer (lines 150 and 155): the sign, the integer digits, the
point, then exactly six fraction digits.  The finite float value is modelled
as a rational; the format rounds it at the sixth decimal. -/
def fmt6_chars (q : ℚ) : List Char :=
  let n : ℤ := round (q * 1000000)
  (if n < 0 then ['-'] else []) ++ natDigits (n.natAbs / 1000000) ++
    '.' :: fracDigits6 (n.natAbs % 1000000)

/-- String form of the .6f rendering. -/
def fmt6 (q : ℚ) : String := String.mk (fmt6_chars q)

/-- One vertex line of write_stl_ascii (line 155). -/
def vertex_line (x y z : ℚ) : String :=
  ("    vertex ") ++ fmt6 x ++ (" ") ++ fmt6 y ++ (" ") ++ fmt6 z ++ ("\n")

/-- One facet normal line of write_stl_ascii (line 150). -/
def facet_normal_line (nx ny nz : ℚ) : String :=
  ("facet normal ") ++ fmt6 nx ++ (" ") ++ fmt6 ny ++ (" ") ++ fmt6 nz ++ ("\n")

/-- A concrete stand-in for the packed-normal parameter of the binary
writer, used to instantiate theorems at concrete inputs: twelve zero bytes
for every face. -/
def nbZero : List Nat → List Nat → List Nat → List Nat :=
  fun _ _ _ => List.replicate 12 0

lemma word_chunks_length : ∀ (l : List Nat), (word_chunks l).length = l.length / 4
  | _ :: _ :: _ :: _ :: rest => by
    have ih := word_chunks_length rest
    simp only [word_chunks, List.length_cons, ih]
    omega
  | [] => by simp [word_chunks]
  | [_] => by simp [word_chunks]
  | [_, _] => by simp [word_chunks]
  | [_, _, _] => by simp [word_chunks]

lemma mem_word_chunks_length : ∀ (l : List Nat), ∀ w ∈ word_chunks l, w.length = 4
  | _ :: _ :: _ :: _ :: rest => by
    intro w hw
    simp only [word_chunks, List.mem_cons] at hw
    rcases hw with h | h
    · simp [h]
    · exact mem_word_chunks_length rest w h
  | [] => by intro w hw; simp [word_chunks] at hw
  | [_] => by intro w hw; simp [word_chunks] at hw
  | [_, _] => by intro w hw; simp [word_chunks] at hw
  | [_, _, _] => by intro w hw; simp [word_chunks] at hw

lemma vertex_chunks_length : ∀ (ws : List (List Nat)),
    (vertex_chunks ws).length = ws.length / 3
  | _ :: _ :: _ :: rest => by
    have ih := vertex_chunks_length rest
    simp only [vertex_chunks, List.length_cons, ih]
    omega
  | [] => by simp [vertex_chunks]
  | [_] => by simp [vertex_chunks]
  | [_, _] => by simp [vertex_chunks]

lemma mem_vertex_chunks_length : ∀ (ws : List (List Nat)),
    (∀ w ∈ ws, w.length = 4) → ∀ v ∈ vertex_chunks ws, v.length = 12
  | a :: b :: c :: rest => by
    intro hw v hv
    simp only [vertex_chunks, List.mem_cons] at hv
    rcases hv with h | h
    · have ha := hw a (by simp)
      have hb := hw b (by simp)
      have hc := hw c (by simp)
      simp [h, ha, hb, hc]
    · exact mem_vertex_chunks_length rest (fun w hmem => hw w (by simp [hmem])) v h
  | [] => by intro _ v hv; simp [vertex_chunks] at hv
  | [_] => by intro _ v hv; simp [vertex_chunks] at hv
  | [_, _] => by intro _ v hv; simp [vertex_chunks] at hv

lemma flatten_map_length_const {α : Type} (f : α → List Nat) (c : Nat) :
    ∀ (l : List α), (∀ a ∈ l, (f a).length = c) →
      ((l.map f).flatten).length = c * l.length
  | [], _ => by simp
  | a :: rest, h => by
    have ih := flatten_map_length_const f c rest (fun x hx => h x (by simp [hx]))
    have ha := h a (by simp)
    simp [ih, ha]
    ring

lemma flatten_map_slice {α : Type} (f : α → List Nat) (c : Nat) :
    ∀ (l : List α) (k : Nat) (x : α), (∀ a ∈ l, (f a).length = c) →
      l.get? k = some x →
      (((l.map f).flatten).drop (c * k)).take c = f x
  | [], k, x, _, hk => by simp at hk
  | a :: rest, 0, x, h, hk => by
    simp only [List.get?] at hk
    obtain rfl : a = x := by injection hk
    have ha := h a (by simp)
    simp only [List.map_cons, List.flatten_cons, Nat.mul_zero, List.drop_zero]
    rw [← ha, List.take_left]
  | a :: rest, k + 1, x, h, hk => by
    simp only [List.get?] at hk
    have ih := flatten_map_slice f c rest k x (fun y hy => h y (by simp [hy])) hk
    have ha := h a (by simp)
    have hck : c * (k + 1) = (f a).length + c * k := by rw [ha]; ring
    simp only [List.map_cons, List.flatten_cons, hck, List.drop_append]
    exact ih

/-- C6: for every input file whose first 4 bytes differ from the glTF magic
tag, parse_glb raises the format error.  The conclusion is one fixed error
value for every such input, independent of everything past the first four
bytes, so the error is raised before any chunk header or chunk contents are
read. -/
theorem c6_bad_magic_rejected (data : List Nat) (h : data.take 4 ≠ glbMagic) :
    parse_glb data = .error ("Not a valid glTF binary file") := by
  have h0 : pySlice data 0 4 ≠ glbMagic := by simpa [pySlice] using h
  rw [parse_glb, if_pos h0]

theorem c6_bad_magic_rejected_witness :
    parse_glb [0, 0, 0, 0] = .error ("Not a valid glTF binary file") :=
  c6_bad_magic_rejected [0, 0, 0, 0] (by decide)

/-- C1 counterexample: with a 48-byte buffer of zeros and an indices accessor
declaring count = 10, the extractor decodes 4 triangles, not floor(10/3) = 3:
the loop for i in range(0, 10, 3) runs at i = 0, 3, 6, 9, and at i = 9 it
reads index positions 9, 10, 11 instead of dropping the partial group. -/
theorem c1_truncation_counterexample :
    (extract_faces (List.replicate 48 0) 0 10).map List.length = some 4 ∧
      (extract_faces (List.replicate 48 0) 0 10).map List.length ≠ some (10 / 3) := by
  decide

/-- C1 amended: whenever the face-extraction loop succeeds, the decoded
triangle count is ceil(idxCount / 3), not floor: a partial final group is not
dropped but completed by reading index positions beyond the declared count
(and the loop instead fails when those extra bytes are not there). -/
theorem c1_triangle_count_is_ceil (bin_data : List Nat)
    (idx_offset idx_count : Nat) (fs : List (Nat × Nat × Nat))
    (h : extract_faces bin_data idx_offset idx_count = some fs) :
    fs.length = (idx_count + 2) / 3 := by
  rw [extract_faces] at h
  split at h
  · injection h with h
    simp [← h]
  · cases h

theorem c1_triangle_count_is_ceil_witness :
    ∃ fs, extract_faces (List.replicate 48 0) 0 10 = some fs ∧
      fs.length = (10 + 2) / 3 :=
  ⟨[(0, 0, 0), (0, 0, 0), (0, 0, 0), (0, 0, 0)], by decide,
    c1_triangle_count_is_ceil (List.replicate 48 0) 0 10
      [(0, 0, 0), (0, 0, 0), (0, 0, 0), (0, 0, 0)] (by decide)⟩

/-- C8: whenever the fallback extractor derives fewer than 3 pseudo-vertices
from the input bytes, it returns normally (ok), produces no output file
(none), and raises no error. -/
theorem c8_fallback_silent_noop (data : List Nat)
    (h : (vertex_chunks (word_chunks data)).length < 3) :
    simple_extraction data = .ok none := by
  simp only [simple_extraction]
  rw [if_pos h]

theorem c8_fallback_silent_noop_witness :
    simple_extraction [] = .ok none :=
  c8_fallback_silent_noop [] (by decide)

/-- C4: whenever some vertex read of the POSITION accessor starts beyond the
binary payload (pos_offset + 12 i exceeds the payload length for some i below
the declared count), vertex decoding fails, and the run diverts to the
fallback extractor on the raw bytes of the original input file. -/
theorem c4_vertex_decode_failure_runs_fallback
    (nb : List Nat → List Nat → List Nat → List Nat)
    (bin_data : List Nat) (pos_offset pos_count idx_offset idx_count : Nat)
    (raw_file : List Nat)
    (h : ∃ i < pos_count, bin_data.length < pos_offset + 12 * i) :
    extract_vertices bin_data pos_offset pos_count = none ∧
      run_conversion nb bin_data pos_offset pos_count idx_offset idx_count
        raw_file = .fallbackRun (simple_extraction raw_file) := by
  obtain ⟨i, hi, hlen⟩ := h
  have hv : extract_vertices bin_data pos_offset pos_count = none := by
    rw [extract_vertices, if_neg]
    intro hall
    have := hall i hi
    omega
  have hm : extract_mesh_from_glb bin_data pos_offset pos_count idx_offset
      idx_count = none := by
    simp [extract_mesh_from_glb, hv]
  exact ⟨hv, by simp [run_conversion, hm]⟩

theorem c4_vertex_decode_failure_runs_fallback_witness :
    extract_vertices [] 1 1 = none ∧
      run_conversion nbZero [] 1 1 0 0 [] = .fallbackRun (simple_extraction []) :=
  c4_vertex_decode_failure_runs_fallback nbZero [] 1 1 0 0 []
    ⟨0, by decide, by decide⟩

/-- C7: whenever the decoded mesh contains a triangle with an index at or
beyond the vertex-array length, the binary writer fails (numpy raises on the
out-of-range lookup rather than reading out of bounds), and the run diverts
to the fallback extractor. -/
theorem c7_oob_index_runs_fallback
    (nb : List Nat → List Nat → List Nat → List Nat)
    (bin_data : List Nat) (pos_offset pos_count idx_offset idx_count : Nat)
    (raw_file : List Nat) (vs : List (List Nat)) (fs : List (Nat × Nat × Nat))
    (hm : extract_mesh_from_glb bin_data pos_offset pos_count idx_offset
      idx_count = some (vs, fs))
    (hb : ∃ f ∈ fs, vs.length ≤ f.1 ∨ vs.length ≤ f.2.1 ∨ vs.length ≤ f.2.2) :
    write_stl_binary nb vs fs = none ∧
      run_conversion nb bin_data pos_offset pos_count idx_offset idx_count
        raw_file = .fallbackRun (simple_extraction raw_file) := by
  have hw : write_stl_binary nb vs fs = none := by
    rw [write_stl_binary, if_neg]
    rintro ⟨-, hall⟩
    obtain ⟨f, hf, hor⟩ := hb
    have := hall f hf
    omega
  exact ⟨hw, by simp [run_conversion, hm, hw]⟩

theorem c7_oob_index_runs_fallback_witness :
    write_stl_binary nbZero [List.replicate 12 0] [(5, 0, 0)] = none ∧
      run_conversion nbZero
        (List.replicate 12 0 ++ [5, 0, 0, 0, 0, 0, 0, 0, 0, 0, 0, 0])
        0 1 12 3 [] = .fallbackRun (simple_extraction []) :=
  c7_oob_index_runs_fallback nbZero _ 0 1 12 3 [] _ _ (by decide)
    ⟨(5, 0, 0), by decide, by decide⟩

lemma getD_length {l : List (List Nat)} {n i : Nat}
    (hv : ∀ v ∈ l, v.length = n) (h : i < l.length) :
    (l.getD i []).length = n := by
  have h1 : l.get? i = some (l.get ⟨i, h⟩) := List.get?_eq_get h
  have h2 : l.getD i [] = l.get ⟨i, h⟩ := by
    rw [List.getD_eq_getD_get?, h1]
    rfl
  rw [h2]
  exact hv _ (List.get_mem l i h)

lemma face_record_length (nb : List Nat → List Nat → List Nat → List Nat)
    (vertices : List (List Nat)) (f : Nat × Nat × Nat)
    (hnb : ∀ va vb vc, (nb va vb vc).length = 12)
    (hv : ∀ v ∈ vertices, v.length = 12)
    (h1 : f.1 < vertices.length) (h2 : f.2.1 < vertices.length)
    (h3 : f.2.2 < vertices.length) :
    (face_record nb vertices f).length = 50 := by
  simp only [face_record, List.length_append, hnb, getD_length hv h1,
    getD_length hv h2, getD_length hv h3, List.length_cons, List.length_nil]

/-- C2: for every vertex array (of 12-byte vertices) and triangle array of
length T (below 2^32, with all indices in range), the binary writer produces
exactly 84 + 50 T bytes: the 80-byte header, the 4-byte little-endian count
equal to T, and then, for the k-th triangle of the array, a 50-byte record at
offset 84 + 50 k made of the 12 normal bytes, the three 12-byte vertex
slices in (a, b, c) order, and the two attribute bytes 0. -/
theorem c2_binary_writer_layout (nb : List Nat → List Nat → List Nat → List Nat)
    (vertices : List (List Nat)) (faces : List (Nat × Nat × Nat))
    (hnb : ∀ va vb vc, (nb va vb vc).length = 12)
    (hv : ∀ v ∈ vertices, v.length = 12)
    (hf : ∀ f ∈ faces, f.1 < vertices.length ∧ f.2.1 < vertices.length ∧
      f.2.2 < vertices.length)
    (hc : faces.length < 4294967296) :
    ∃ out, write_stl_binary nb vertices faces = some out ∧
      out.length = 84 + 50 * faces.length ∧
      out.take 80 = stl_header ∧
      (out.drop 80).take 4 = u32_bytes faces.length ∧
      ∀ k f, faces.get? k = some f →
        (out.drop (84 + 50 * k)).take 50 = face_record nb vertices f := by
  have hrec : ∀ f ∈ faces, (face_record nb vertices f).length = 50 := by
    intro f hfm
    obtain ⟨h1, h2, h3⟩ := hf f hfm
    exact face_record_length nb vertices f hnb hv h1 h2 h3
  have hw : write_stl_binary nb vertices faces =
      some (stl_header ++ u32_bytes faces.length ++
        (faces.map (face_record nb vertices)).flatten) := by
    rw [write_stl_binary, if_pos ⟨hc, hf⟩]
  have hhead : stl_header.length = 80 := by decide
  have hu32 : (u32_bytes faces.length).length = 4 := by simp [u32_bytes]
  have hflat := flatten_map_length_const (face_record nb vertices) 50 faces hrec
  refine ⟨_, hw, ?_, ?_, ?_, ?_⟩
  · rw [List.length_append, List.length_append, hhead, hu32, hflat]
  · rw [List.append_assoc, ← hhead, List.take_left]
  · rw [List.append_assoc, ← hhead, List.drop_left, ← hu32, List.take_left]
  · intro k f hk
    have hoff : 84 + 50 * k = stl_header.length +
        ((u32_bytes faces.length).length + 50 * k) := by omega
    rw [List.append_assoc, hoff, List.drop_append, List.drop_append]
    exact flatten_map_slice (face_record nb vertices) 50 faces k f hrec hk

theorem c2_binary_writer_layout_witness :
    ∃ out, write_stl_binary nbZero [List.replicate 12 0] [(0, 0, 0)] = some out ∧
      out.length = 84 + 50 * 1 ∧ out.take 80 = stl_header := by
  obtain ⟨out, h1, h2, h3, -⟩ :=
    c2_binary_writer_layout nbZero [List.replicate 12 0] [(0, 0, 0)]
      (fun _ _ _ => by simp [nbZero]) (by decide) (by decide) (by decide)
  exact ⟨out, h1, by simpa using h2, h3⟩

lemma fallback_record_take_12 (verts : List (List Nat)) (f : Nat × Nat × Nat) :
    (fallback_record verts f).take 12 = List.replicate 12 0 := by
  simp only [fallback_record, List.append_assoc]
  exact List.take_left' (by simp)

lemma fallback_record_length (verts : List (List Nat)) (f : Nat × Nat × Nat)
    (hv : ∀ v ∈ verts, v.length = 12)
    (h1 : f.1 < verts.length) (h2 : f.2.1 < verts.length)
    (h3 : f.2.2 < verts.length) :
    (fallback_record verts f).length = 50 := by
  simp only [fallback_record, List.length_append, getD_length hv h1,
    getD_length hv h2, getD_length hv h3, List.length_replicate,
    List.length_cons, List.length_nil]

lemma take_12_of_take_50 {l r : List Nat} (h : l.take 50 = r) :
    l.take 12 = r.take 12 := by
  rw [← h, List.take_take]
  norm_num

/-- C5: for every input whose bytes reinterpret to exactly 12 32-bit floats
(4 pseudo-vertices), the fallback extractor writes a binary mesh file with
exactly the 2 fan triangles (0, 1, 2) and (0, 2, 3), and the 12 normal bytes
of each written record are exactly zero (the zero vector is written
unconditionally, without computation). -/
theorem c5_fallback_fan_of_four_vertices (data : List Nat)
    (h : data.length / 4 = 12) :
    (fallback_faces (vertex_chunks (word_chunks data)).length).take 98 =
      [(0, 1, 2), (0, 2, 3)] ∧
    ∃ out, simple_extraction data = .ok (some out) ∧
      out.length = 84 + 50 * 2 ∧
      (out.drop 80).take 4 = u32_bytes 2 ∧
      (out.drop 84).take 12 = List.replicate 12 0 ∧
      (out.drop 134).take 12 = List.replicate 12 0 := by
  have hwl : (word_chunks data).length = 12 := by rw [word_chunks_length, h]
  have hv : (vertex_chunks (word_chunks data)).length = 4 := by
    rw [vertex_chunks_length, hwl]
  have hvl : ∀ v ∈ vertex_chunks (word_chunks data), v.length = 12 :=
    mem_vertex_chunks_length _ (mem_word_chunks_length data)
  have hfaces : (fallback_faces (vertex_chunks (word_chunks data)).length).take 98 =
      [(0, 1, 2), (0, 2, 3)] := by rw [hv]; decide
  refine ⟨hfaces, ?_⟩
  have htl : ((vertex_chunks (word_chunks data)).take 100).length = 4 := by
    rw [List.length_take, hv]
    decide
  have hvl2 : ∀ v ∈ (vertex_chunks (word_chunks data)).take 100, v.length = 12 :=
    fun v hm => hvl v (List.mem_of_mem_take hm)
  have hcond : ∀ f ∈ (fallback_faces (vertex_chunks (word_chunks data)).length).take 98,
      f.1 < ((vertex_chunks (word_chunks data)).take 100).length ∧
      f.2.1 < ((vertex_chunks (word_chunks data)).take 100).length ∧
      f.2.2 < ((vertex_chunks (word_chunks data)).take 100).length := by
    rw [hfaces]
    intro f hf
    rw [htl]
    fin_cases hf <;> decide
  have hse : simple_extraction data = .ok (some (fallback_header ++
      u32_bytes ((fallback_faces (vertex_chunks (word_chunks data)).length).take 98).length ++
      (((fallback_faces (vertex_chunks (word_chunks data)).length).take 98).map
        (fallback_record ((vertex_chunks (word_chunks data)).take 100))).flatten)) := by
    simp only [simple_extraction]
    rw [if_neg (by omega), if_pos hcond]
  rw [hfaces] at hse
  simp only [List.length_cons, List.length_nil, Nat.zero_add, Nat.reduceAdd] at hse
  have hr : ∀ f ∈ [((0:Nat), (1:Nat), (2:Nat)), (0, 2, 3)],
      (fallback_record ((vertex_chunks (word_chunks data)).take 100) f).length = 50 := by
    intro f hf
    refine fallback_record_length _ f hvl2 ?_ ?_ ?_ <;> rw [htl] <;> fin_cases hf <;> decide
  have hhead : fallback_header.length = 80 := by decide
  have hu32 : (u32_bytes (2:Nat)).length = 4 := by simp [u32_bytes]
  have hflat := flatten_map_length_const
    (fallback_record ((vertex_chunks (word_chunks data)).take 100)) 50
    [((0:Nat), (1:Nat), (2:Nat)), (0, 2, 3)] hr
  simp only [List.length_cons, List.length_nil, Nat.zero_add, Nat.reduceAdd] at hflat
  have hs0 := flatten_map_slice
    (fallback_record ((vertex_chunks (word_chunks data)).take 100)) 50
    [((0:Nat), (1:Nat), (2:Nat)), (0, 2, 3)] 0 (0, 1, 2) hr rfl
  have hs1 := flatten_map_slice
    (fallback_record ((vertex_chunks (word_chunks data)).take 100)) 50
    [((0:Nat), (1:Nat), (2:Nat)), (0, 2, 3)] 1 (0, 2, 3) hr rfl
  refine ⟨_, hse, ?_, ?_, ?_, ?_⟩
  · rw [List.length_append, List.length_append, hhead, hu32, hflat]
  · rw [List.append_assoc, ← hhead, List.drop_left, ← hu32, List.take_left]
  · have hoff : (84:Nat) = fallback_header.length + ((u32_bytes (2:Nat)).length + 50 * 0) := by
      rw [hhead, hu32]
    rw [List.append_assoc, hoff, List.drop_append, List.drop_append,
      take_12_of_take_50 hs0, fallback_record_take_12]
  · have hoff : (134:Nat) = fallback_header.length + ((u32_bytes (2:Nat)).length + 50 * 1) := by
      rw [hhead, hu32]
    rw [List.append_assoc, hoff, List.drop_append, List.drop_append,
      take_12_of_take_50 hs1, fallback_record_take_12]

theorem c5_fallback_fan_of_four_vertices_witness :
    ∃ out, simple_extraction (List.replicate 48 0) = .ok (some out) ∧
      out.length = 84 + 50 * 2 := by
  obtain ⟨-, out, h1, h2, -⟩ :=
    c5_fallback_fan_of_four_vertices (List.replicate 48 0) (by decide)
  exact ⟨out, h1, h2⟩

lemma fallback_faces_take_mem (V : Nat) (hV : 3 ≤ V) :
    ∀ f ∈ (fallback_faces V).take 98,
      ∃ j, j < min 98 (V - 2) ∧ f = (0, j + 1, j + 2) := by
  intro f hf
  have hV1 : V - 1 = (V - 2) + 1 := by omega
  rw [fallback_faces, ← List.map_take, hV1, List.range_succ_eq_map] at hf
  simp only [List.drop_succ_cons, List.drop_zero] at hf
  rw [← List.map_take, List.take_range] at hf
  simp only [List.map_map, List.mem_map, List.mem_range, Function.comp] at hf
  obtain ⟨j, hj, rfl⟩ := hf
  exact ⟨j, hj, rfl⟩

/-- C10: in the fallback path, for every input yielding at least 3
pseudo-vertices, after clamping to the first 100 vertices and 98 fan faces,
every written triangle is (0, i, i+1) with i + 1 below the clamped vertex
count, so every vertex lookup of the fallback write loop is in bounds and the
fallback write completes with an output file (in particular it never raises
the IndexError branch). -/
theorem c10_fallback_lookups_in_bounds (data : List Nat)
    (h : 3 ≤ (vertex_chunks (word_chunks data)).length) :
    (∀ f ∈ (fallback_faces (vertex_chunks (word_chunks data)).length).take 98,
      ∃ i, f = (0, i, i + 1) ∧
        i + 1 < ((vertex_chunks (word_chunks data)).take 100).length) ∧
    ∃ out, simple_extraction data = .ok (some out) := by
  have hchar := fallback_faces_take_mem (vertex_chunks (word_chunks data)).length h
  constructor
  · intro f hf
    obtain ⟨j, hj, heq⟩ := hchar f hf
    refine ⟨j + 1, heq, ?_⟩
    rw [List.length_take]
    omega
  · have hcond : ∀ f ∈ (fallback_faces (vertex_chunks (word_chunks data)).length).take 98,
        f.1 < ((vertex_chunks (word_chunks data)).take 100).length ∧
        f.2.1 < ((vertex_chunks (word_chunks data)).take 100).length ∧
        f.2.2 < ((vertex_chunks (word_chunks data)).take 100).length := by
      intro f hf
      obtain ⟨j, hj, heq⟩ := hchar f hf
      have h1 : f.1 = 0 := by rw [heq]
      have h2 : f.2.1 = j + 1 := by rw [heq]
      have h3 : f.2.2 = j + 2 := by rw [heq]
      rw [h1, h2, h3]
      simp only [List.length_take]
      omega
    have hok : simple_extraction data = .ok (some (fallback_header ++
        u32_bytes ((fallback_faces (vertex_chunks (word_chunks data)).length).take 98).length ++
        (((fallback_faces (vertex_chunks (word_chunks data)).length).take 98).map
          (fallback_record ((vertex_chunks (word_chunks data)).take 100))).flatten)) := by
      simp only [simple_extraction]
      rw [if_neg (by omega), if_pos hcond]
    exact ⟨_, hok⟩

theorem c10_fallback_lookups_in_bounds_witness :
    ∃ out, simple_extraction (List.replicate 48 0) = .ok (some out) :=
  (c10_fallback_lookups_in_bounds (List.replicate 48 0) (by decide)).2

lemma vnorm_div (n : Vec3) (h : 0 < vnorm n) :
    vnorm ⟨n.x / vnorm n, n.y / vnorm n, n.z / vnorm n⟩ = 1 := by
  have hsum : n.x ^ 2 + n.y ^ 2 + n.z ^ 2 = (vnorm n) ^ 2 :=
    (Real.sq_sqrt (by positivity)).symm
  have hne : vnorm n ≠ 0 := ne_of_gt h
  rw [vnorm]
  simp only
  rw [div_pow, div_pow, div_pow, div_add_div_same, div_add_div_same, hsum,
    div_self (pow_ne_zero 2 hne), Real.sqrt_one]

/-- C3: the per-face normal is the right-hand cross product of the edges
v1 - v0 and v2 - v0, normalized by its magnitude when the magnitude is
positive (so the result then has unit norm) and left as exactly the zero
vector when the magnitude is zero (never an error); in particular the
triangle (0,0,0), (1,0,0), (0,1,0) yields (0,0,1), and a triangle with all
three vertices equal yields (0,0,0). -/
theorem c3_face_normal_properties :
    face_normal ⟨0, 0, 0⟩ ⟨1, 0, 0⟩ ⟨0, 1, 0⟩ = ⟨0, 0, 1⟩ ∧
    (∀ v0 v1 v2 : Vec3, vnorm (cross (vsub v1 v0) (vsub v2 v0)) = 0 →
      face_normal v0 v1 v2 = ⟨0, 0, 0⟩) ∧
    (∀ v : Vec3, face_normal v v v = ⟨0, 0, 0⟩) ∧
    (∀ v0 v1 v2 : Vec3, 0 < vnorm (cross (vsub v1 v0) (vsub v2 v0)) →
      vnorm (face_normal v0 v1 v2) = 1) := by
  have hzero : ∀ v0 v1 v2 : Vec3, vnorm (cross (vsub v1 v0) (vsub v2 v0)) = 0 →
      face_normal v0 v1 v2 = ⟨0, 0, 0⟩ := by
    intro v0 v1 v2 hz
    have h0 : (cross (vsub v1 v0) (vsub v2 v0)).x ^ 2 +
        (cross (vsub v1 v0) (vsub v2 v0)).y ^ 2 +
        (cross (vsub v1 v0) (vsub v2 v0)).z ^ 2 ≤ 0 := Real.sqrt_eq_zero'.mp hz
    have hx : (cross (vsub v1 v0) (vsub v2 v0)).x = 0 := by
      nlinarith [sq_nonneg (cross (vsub v1 v0) (vsub v2 v0)).x,
        sq_nonneg (cross (vsub v1 v0) (vsub v2 v0)).y,
        sq_nonneg (cross (vsub v1 v0) (vsub v2 v0)).z]
    have hy : (cross (vsub v1 v0) (vsub v2 v0)).y = 0 := by
      nlinarith [sq_nonneg (cross (vsub v1 v0) (vsub v2 v0)).x,
        sq_nonneg (cross (vsub v1 v0) (vsub v2 v0)).y,
        sq_nonneg (cross (vsub v1 v0) (vsub v2 v0)).z]
    have hzc : (cross (vsub v1 v0) (vsub v2 v0)).z = 0 := by
      nlinarith [sq_nonneg (cross (vsub v1 v0) (vsub v2 v0)).x,
        sq_nonneg (cross (vsub v1 v0) (vsub v2 v0)).y,
        sq_nonneg (cross (vsub v1 v0) (vsub v2 v0)).z]
    simp only [face_normal, hz, lt_irrefl, if_false]
    exact Vec3.ext hx hy hzc
  have hconc : face_normal ⟨0, 0, 0⟩ ⟨1, 0, 0⟩ ⟨0, 1, 0⟩ = ⟨0, 0, 1⟩ := by
    simp only [face_normal, vsub, cross, vnorm]
    norm_num [Real.sqrt_one]
  have hvvv : ∀ v : Vec3, face_normal v v v = ⟨0, 0, 0⟩ := by
    intro v
    apply hzero
    simp [vsub, cross, vnorm, Real.sqrt_zero]
  have hunit : ∀ v0 v1 v2 : Vec3, 0 < vnorm (cross (vsub v1 v0) (vsub v2 v0)) →
      vnorm (face_normal v0 v1 v2) = 1 := by
    intro v0 v1 v2 hp
    simp only [face_normal]
    rw [if_pos hp]
    exact vnorm_div (cross (vsub v1 v0) (vsub v2 v0)) hp
  exact ⟨hconc, hzero, hvvv, hunit⟩

theorem c3_face_normal_properties_witness :
    face_normal ⟨1, 2, 3⟩ ⟨1, 2, 3⟩ ⟨1, 2, 3⟩ = ⟨0, 0, 0⟩ :=
  c3_face_normal_properties.2.1 ⟨1, 2, 3⟩ ⟨1, 2, 3⟩ ⟨1, 2, 3⟩
    (by simp [vsub, cross, vnorm, Real.sqrt_zero])

lemma digitChar_isDigit (d : Nat) : (digitChar d).isDigit = true := by
  have h : d % 10 < 10 := Nat.mod_lt _ (by omega)
  unfold digitChar
  set r := d % 10 with hr
  interval_cases r <;> decide

lemma natDigitsAux_isDigit :
    ∀ (fuel n : Nat), ∀ c ∈ natDigitsAux fuel n, c.isDigit = true
  | 0, n => by simp [natDigitsAux]
  | fuel + 1, n => by
    intro c hc
    simp only [natDigitsAux] at hc
    by_cases h : n < 10
    · rw [if_pos h] at hc
      simp only [List.mem_singleton] at hc
      subst hc
      exact digitChar_isDigit n
    · rw [if_neg h] at hc
      rcases List.mem_append.mp hc with h1 | h1
      · exact natDigitsAux_isDigit fuel (n / 10) c h1
      · simp only [List.mem_singleton] at h1
        subst h1
        exact digitChar_isDigit (n % 10)

lemma fracDigits6_isDigit (r : Nat) : ∀ c ∈ fracDigits6 r, c.isDigit = true := by
  intro c hc
  fin_cases hc <;> exact digitChar_isDigit _

/-- C9: in the text output, every rendered value has the shape
sign-and-integer-digits, one decimal point, then exactly 6 digits — never an
exponent marker, whatever the magnitude; in particular 1 renders as 1.000000
and 1/1000000 as 0.000001, and a vertex line embeds these renderings. -/
theorem c9_ascii_fixed_six_decimals :
    (∀ x : ℚ, ∃ s t : List Char,
      (fmt6 x).data = s ++ '.' :: t ∧
      t.length = 6 ∧
      (∀ c ∈ t, c.isDigit = true) ∧
      (∀ c ∈ s, c.isDigit = true ∨ c = '-') ∧
      '.' ∉ s ∧ 'e' ∉ s ∧ 'e' ∉ t) ∧
    fmt6 1 = "1.000000" ∧
    fmt6 (1 / 1000000) = "0.000001" ∧
    vertex_line 1 0 0 = "    vertex 1.000000 0.000000 0.000000\n" := by
  refine ⟨?_, ?_, ?_, ?_⟩
  · intro x
    have hs : ∀ c ∈ (if round (x * 1000000) < 0 then ['-'] else []) ++
        natDigits ((round (x * 1000000)).natAbs / 1000000),
        c.isDigit = true ∨ c = '-' := by
      intro c hc
      rcases List.mem_append.mp hc with h | h
      · by_cases hneg : round (x * 1000000) < 0
        · rw [if_pos hneg] at h
          simp only [List.mem_singleton] at h
          exact Or.inr h
        · rw [if_neg hneg] at h
          simp at h
      · exact Or.inl (natDigitsAux_isDigit _ _ c h)
    refine ⟨(if round (x * 1000000) < 0 then ['-'] else []) ++
        natDigits ((round (x * 1000000)).natAbs / 1000000),
      fracDigits6 ((round (x * 1000000)).natAbs % 1000000),
      rfl, rfl, fracDigits6_isDigit _, hs, ?_, ?_, ?_⟩
    · intro hdot
      rcases hs _ hdot with h | h
      · exact absurd h (by decide)
      · exact absurd h (by decide)
    · intro he
      rcases hs _ he with h | h
      · exact absurd h (by decide)
      · exact absurd h (by decide)
    · intro he
      exact absurd (fracDigits6_isDigit _ _ he) (by decide)
  · have h : round ((1 : ℚ) * 1000000) = 1000000 := by norm_num [round_eq]
    simp only [fmt6, fmt6_chars, h]
    decide
  · have h : round ((1 / 1000000 : ℚ) * 1000000) = 1 := by norm_num [round_eq]
    simp only [fmt6, fmt6_chars, h]
    decide
  · have h1 : round ((1 : ℚ) * 1000000) = 1000000 := by norm_num [round_eq]
    have h0 : round ((0 : ℚ) * 1000000) = 0 := by norm_num [round_eq]
    simp only [vertex_line, fmt6, fmt6_chars, h1, h0]
    decide

theorem c9_ascii_fixed_six_decimals_witness :
    ∃ s t : List Char, (fmt6 37).data = s ++ '.' :: t ∧ t.length = 6 := by
  obtain ⟨s, t, h1, h2, -⟩ := c9_ascii_fixed_six_decimals.1 37
  exact ⟨s, t, h1, h2⟩
